import Mathlib

/-!
Verification of the cipher-suite negotiation layer of an early gnutls
release (`gnutls_algorithms.c`): the static algorithm registries, the
per-session priority engine, the suite filter, the hand-rolled quicksort
used to order offerable suites, and the suite/compression resolvers.

The C file is embedded shallowly: each static table becomes a Lean list of
records (the null terminator row of each C table is dropped; the C scan
loops stop there, so a loop over the C table is a scan over the Lean
list), each linear-scan accessor becomes a `List.find?`-based function
with the same sentinel result, and the imperative filter/sort pipeline
becomes structurally identical recursion over lists.

Enumeration constants (`gnutls_kx_algorithm`, `gnutls_cipher_algorithm`,
`gnutls_mac_algorithm`, `gnutls_compression_method`, credential types)
are declared in headers that accompany the C file; the code compares them
only for equality, so they are embedded as distinct nonzero naturals.
Protocol version identifiers are additionally ordered (the code compares
them with `>`), with `GNUTLS_SSL3 < GNUTLS_TLS1` matching the header
order and the (major, minor) order of the version table.
-/

/- Key exchange algorithm identifiers (distinct, nonzero). -/
def GNUTLS_KX_RSA : Nat := 1
def GNUTLS_KX_DHE_DSS : Nat := 2
def GNUTLS_KX_DHE_RSA : Nat := 3
def GNUTLS_KX_ANON_DH : Nat := 4
def GNUTLS_KX_SRP : Nat := 5
def GNUTLS_KX_RSA_EXPORT : Nat := 6
def GNUTLS_KX_SRP_RSA : Nat := 7
def GNUTLS_KX_SRP_DSS : Nat := 8

/- Cipher algorithm identifiers (distinct, nonzero). -/
def GNUTLS_CIPHER_NULL : Nat := 1
def GNUTLS_CIPHER_ARCFOUR_128 : Nat := 2
def GNUTLS_CIPHER_3DES_CBC : Nat := 3
def GNUTLS_CIPHER_AES_128_CBC : Nat := 4
def GNUTLS_CIPHER_AES_256_CBC : Nat := 5
def GNUTLS_CIPHER_ARCFOUR_40 : Nat := 6
def GNUTLS_CIPHER_RC2_40_CBC : Nat := 7
def GNUTLS_CIPHER_DES_CBC : Nat := 8
def GNUTLS_CIPHER_TWOFISH_128_CBC : Nat := 9

/- MAC algorithm identifiers (distinct, nonzero). -/
def GNUTLS_MAC_NULL : Nat := 1
def GNUTLS_MAC_MD5 : Nat := 2
def GNUTLS_MAC_SHA : Nat := 3

/- Compression method identifiers (distinct, nonzero). -/
def GNUTLS_COMP_NULL : Nat := 1
def GNUTLS_COMP_ZLIB : Nat := 2

/- Credential types (distinct, nonzero). -/
def GNUTLS_CRD_CERTIFICATE : Nat := 1
def GNUTLS_CRD_ANON : Nat := 2
def GNUTLS_CRD_SRP : Nat := 3

/-- Protocol version identifiers: ordered consistently with
(major, minor), `SSL3 = (3,0) < TLS1 = (3,1)`. -/
def GNUTLS_SSL3 : Nat := 1

def GNUTLS_TLS1 : Nat := 2

/-- Modelled from the spec: the dedicated "no cipher suites" error code
(`gnutls_errors.h` is not part of the excerpt); only its being a fixed
negative error value distinct from every success count matters. -/
def GNUTLS_E_NO_CIPHER_SUITES : Int := -21

/-- Modelled from the spec: the dedicated "no compression algorithms"
error code (`gnutls_errors.h` is not part of the excerpt). -/
def GNUTLS_E_NO_COMPRESSION_ALGORITHMS : Int := -76

/-- The 2-byte wire identifier of a cipher suite
(`GNUTLS_CipherSuite.CipherSuite[0..1]` in the C source). -/
structure GNUTLS_CipherSuite where
  b0 : Nat
  b1 : Nat
deriving DecidableEq, Repr, Inhabited

/-- One row of the `cred_mappings` table. -/
structure gnutls_cred_map where
  algorithm : Nat
  client_type : Nat
  server_type : Nat
deriving DecidableEq, Repr

/-- `cred_mappings`: credential types required for each kx algorithm. -/
def cred_mappings : List gnutls_cred_map :=
  [⟨GNUTLS_KX_ANON_DH, GNUTLS_CRD_ANON, GNUTLS_CRD_ANON⟩,
   ⟨GNUTLS_KX_RSA, GNUTLS_CRD_CERTIFICATE, GNUTLS_CRD_CERTIFICATE⟩,
   ⟨GNUTLS_KX_RSA_EXPORT, GNUTLS_CRD_CERTIFICATE, GNUTLS_CRD_CERTIFICATE⟩,
   ⟨GNUTLS_KX_DHE_DSS, GNUTLS_CRD_CERTIFICATE, GNUTLS_CRD_CERTIFICATE⟩,
   ⟨GNUTLS_KX_DHE_RSA, GNUTLS_CRD_CERTIFICATE, GNUTLS_CRD_CERTIFICATE⟩,
   ⟨GNUTLS_KX_SRP, GNUTLS_CRD_SRP, GNUTLS_CRD_SRP⟩,
   ⟨GNUTLS_KX_SRP_RSA, GNUTLS_CRD_SRP, GNUTLS_CRD_CERTIFICATE⟩,
   ⟨GNUTLS_KX_SRP_DSS, GNUTLS_CRD_SRP, GNUTLS_CRD_CERTIFICATE⟩]

/-- One row of the cipher table `algorithms`. -/
structure gnutls_cipher_entry where
  name : String
  id : Nat
  blocksize : Nat
  keysize : Nat
  block : Bool
  iv : Nat
  export_flag : Nat
deriving DecidableEq, Repr

/-- The static cipher table `algorithms`. -/
def algorithms : List gnutls_cipher_entry :=
  [⟨"3DES 168 CBC", GNUTLS_CIPHER_3DES_CBC, 8, 24, true, 8, 0⟩,
   ⟨"AES 128 CBC", GNUTLS_CIPHER_AES_128_CBC, 16, 16, true, 16, 0⟩,
   ⟨"AES 256 CBC", GNUTLS_CIPHER_AES_256_CBC, 16, 32, true, 16, 0⟩,
   ⟨"TWOFISH 128 CBC", GNUTLS_CIPHER_TWOFISH_128_CBC, 16, 16, true, 16, 0⟩,
   ⟨"ARCFOUR 128", GNUTLS_CIPHER_ARCFOUR_128, 1, 16, false, 0, 0⟩,
   ⟨"ARCFOUR 40", GNUTLS_CIPHER_ARCFOUR_40, 1, 5, false, 0, 1⟩,
   ⟨"RC2 40", GNUTLS_CIPHER_RC2_40_CBC, 8, 5, true, 8, 1⟩,
   ⟨"DES CBC", GNUTLS_CIPHER_DES_CBC, 8, 8, true, 8, 0⟩,
   ⟨"NULL", GNUTLS_CIPHER_NULL, 1, 0, false, 0, 0⟩]

/-- One row of the hash table `hash_algorithms`. -/
structure gnutls_hash_entry where
  name : String
  id : Nat
  digestsize : Nat
deriving DecidableEq, Repr

/-- The static MAC table `hash_algorithms`. -/
def hash_algorithms : List gnutls_hash_entry :=
  [⟨"SHA", GNUTLS_MAC_SHA, 20⟩,
   ⟨"MD5", GNUTLS_MAC_MD5, 16⟩,
   ⟨"NULL", GNUTLS_MAC_NULL, 0⟩]

/-- One row of the compression table. -/
structure gnutls_compression_entry where
  name : String
  id : Nat
  num : Nat
  window_bits : Nat
  mem_level : Nat
  comp_level : Nat
deriving DecidableEq, Repr

/-- `_gnutls_compression_algorithms` with `HAVE_LIBZ` configured, so both
the NULL method (wire number 0x00) and zlib (wire number 0x01) are
present. -/
def _gnutls_compression_algorithms : List gnutls_compression_entry :=
  [⟨"GNUTLS_COMP_NULL", GNUTLS_COMP_NULL, 0x00, 0, 0, 0⟩,
   ⟨"GNUTLS_COMP_ZLIB", GNUTLS_COMP_ZLIB, 0x01, 15, 8, 3⟩]

/-- One row of the cipher-suite table `cs_algorithms`. -/
structure gnutls_cipher_suite_entry where
  name : String
  id : GNUTLS_CipherSuite
  block_algorithm : Nat
  kx_algorithm : Nat
  mac_algorithm : Nat
  version : Nat
deriving DecidableEq, Repr

/-- The static cipher-suite table `cs_algorithms`, in source order. -/
def cs_algorithms : List gnutls_cipher_suite_entry :=
  [⟨"GNUTLS_ANON_DH_ARCFOUR_MD5", ⟨0x00, 0x18⟩,
    GNUTLS_CIPHER_ARCFOUR_128, GNUTLS_KX_ANON_DH, GNUTLS_MAC_MD5, GNUTLS_SSL3⟩,
   ⟨"GNUTLS_ANON_DH_3DES_EDE_CBC_SHA", ⟨0x00, 0x1B⟩,
    GNUTLS_CIPHER_3DES_CBC, GNUTLS_KX_ANON_DH, GNUTLS_MAC_SHA, GNUTLS_SSL3⟩,
   ⟨"GNUTLS_ANON_DH_AES_128_CBC_SHA", ⟨0x00, 0x34⟩,
    GNUTLS_CIPHER_AES_128_CBC, GNUTLS_KX_ANON_DH, GNUTLS_MAC_SHA, GNUTLS_SSL3⟩,
   ⟨"GNUTLS_ANON_DH_AES_256_CBC_SHA", ⟨0x00, 0x3A⟩,
    GNUTLS_CIPHER_AES_256_CBC, GNUTLS_KX_ANON_DH, GNUTLS_MAC_SHA, GNUTLS_SSL3⟩,
   ⟨"GNUTLS_ANON_DH_TWOFISH_128_CBC_SHA", ⟨0xFF, 0x50⟩,
    GNUTLS_CIPHER_TWOFISH_128_CBC, GNUTLS_KX_ANON_DH, GNUTLS_MAC_SHA, GNUTLS_TLS1⟩,
   ⟨"GNUTLS_SRP_SHA_3DES_EDE_CBC_SHA", ⟨0x00, 0x50⟩,
    GNUTLS_CIPHER_3DES_CBC, GNUTLS_KX_SRP, GNUTLS_MAC_SHA, GNUTLS_TLS1⟩,
   ⟨"GNUTLS_SRP_SHA_AES_128_CBC_SHA", ⟨0x00, 0x53⟩,
    GNUTLS_CIPHER_AES_128_CBC, GNUTLS_KX_SRP, GNUTLS_MAC_SHA, GNUTLS_TLS1⟩,
   ⟨"GNUTLS_SRP_SHA_AES_256_CBC_SHA", ⟨0x00, 0x56⟩,
    GNUTLS_CIPHER_AES_256_CBC, GNUTLS_KX_SRP, GNUTLS_MAC_SHA, GNUTLS_TLS1⟩,
   ⟨"GNUTLS_SRP_SHA_DSS_3DES_EDE_CBC_SHA", ⟨0x00, 0x52⟩,
    GNUTLS_CIPHER_3DES_CBC, GNUTLS_KX_SRP_DSS, GNUTLS_MAC_SHA, GNUTLS_TLS1⟩,
   ⟨"GNUTLS_SRP_SHA_RSA_3DES_EDE_CBC_SHA", ⟨0x00, 0x51⟩,
    GNUTLS_CIPHER_3DES_CBC, GNUTLS_KX_SRP_RSA, GNUTLS_MAC_SHA, GNUTLS_TLS1⟩,
   ⟨"GNUTLS_SRP_SHA_DSS_AES_128_CBC_SHA", ⟨0x00, 0x55⟩,
    GNUTLS_CIPHER_AES_128_CBC, GNUTLS_KX_SRP_DSS, GNUTLS_MAC_SHA, GNUTLS_TLS1⟩,
   ⟨"GNUTLS_SRP_SHA_RSA_AES_128_CBC_SHA", ⟨0x00, 0x54⟩,
    GNUTLS_CIPHER_AES_128_CBC, GNUTLS_KX_SRP_RSA, GNUTLS_MAC_SHA, GNUTLS_TLS1⟩,
   ⟨"GNUTLS_SRP_SHA_DSS_AES_256_CBC_SHA", ⟨0x00, 0x58⟩,
    GNUTLS_CIPHER_AES_256_CBC, GNUTLS_KX_SRP_DSS, GNUTLS_MAC_SHA, GNUTLS_TLS1⟩,
   ⟨"GNUTLS_SRP_SHA_RSA_AES_256_CBC_SHA", ⟨0x00, 0x57⟩,
    GNUTLS_CIPHER_AES_256_CBC, GNUTLS_KX_SRP_RSA, GNUTLS_MAC_SHA, GNUTLS_TLS1⟩,
   ⟨"GNUTLS_DHE_DSS_ARCFOUR_SHA", ⟨0x00, 0x66⟩,
    GNUTLS_CIPHER_ARCFOUR_128, GNUTLS_KX_DHE_DSS, GNUTLS_MAC_SHA, GNUTLS_TLS1⟩,
   ⟨"GNUTLS_DHE_DSS_TWOFISH_128_CBC_SHA", ⟨0xFF, 0x54⟩,
    GNUTLS_CIPHER_TWOFISH_128_CBC, GNUTLS_KX_DHE_DSS, GNUTLS_MAC_SHA, GNUTLS_TLS1⟩,
   ⟨"GNUTLS_DHE_DSS_3DES_EDE_CBC_SHA", ⟨0x00, 0x13⟩,
    GNUTLS_CIPHER_3DES_CBC, GNUTLS_KX_DHE_DSS, GNUTLS_MAC_SHA, GNUTLS_SSL3⟩,
   ⟨"GNUTLS_DHE_DSS_AES_128_CBC_SHA", ⟨0x00, 0x32⟩,
    GNUTLS_CIPHER_AES_128_CBC, GNUTLS_KX_DHE_DSS, GNUTLS_MAC_SHA, GNUTLS_SSL3⟩,
   ⟨"GNUTLS_DHE_DSS_AES_256_CBC_SHA", ⟨0x00, 0x38⟩,
    GNUTLS_CIPHER_AES_256_CBC, GNUTLS_KX_DHE_DSS, GNUTLS_MAC_SHA, GNUTLS_SSL3⟩,
   ⟨"GNUTLS_DHE_RSA_TWOFISH_128_CBC_SHA", ⟨0xFF, 0x55⟩,
    GNUTLS_CIPHER_TWOFISH_128_CBC, GNUTLS_KX_DHE_RSA, GNUTLS_MAC_SHA, GNUTLS_TLS1⟩,
   ⟨"GNUTLS_DHE_RSA_3DES_EDE_CBC_SHA", ⟨0x00, 0x16⟩,
    GNUTLS_CIPHER_3DES_CBC, GNUTLS_KX_DHE_RSA, GNUTLS_MAC_SHA, GNUTLS_SSL3⟩,
   ⟨"GNUTLS_DHE_RSA_AES_128_CBC_SHA", ⟨0x00, 0x33⟩,
    GNUTLS_CIPHER_AES_128_CBC, GNUTLS_KX_DHE_RSA, GNUTLS_MAC_SHA, GNUTLS_SSL3⟩,
   ⟨"GNUTLS_DHE_RSA_AES_256_CBC_SHA", ⟨0x00, 0x39⟩,
    GNUTLS_CIPHER_AES_256_CBC, GNUTLS_KX_DHE_RSA, GNUTLS_MAC_SHA, GNUTLS_SSL3⟩,
   ⟨"GNUTLS_RSA_NULL_MD5", ⟨0x00, 0x01⟩,
    GNUTLS_CIPHER_NULL, GNUTLS_KX_RSA, GNUTLS_MAC_MD5, GNUTLS_SSL3⟩,
   ⟨"GNUTLS_RSA_EXPORT_ARCFOUR_40_MD5", ⟨0x00, 0x03⟩,
    GNUTLS_CIPHER_ARCFOUR_40, GNUTLS_KX_RSA_EXPORT, GNUTLS_MAC_MD5, GNUTLS_SSL3⟩,
   ⟨"GNUTLS_RSA_ARCFOUR_SHA", ⟨0x00, 0x05⟩,
    GNUTLS_CIPHER_ARCFOUR_128, GNUTLS_KX_RSA, GNUTLS_MAC_SHA, GNUTLS_SSL3⟩,
   ⟨"GNUTLS_RSA_ARCFOUR_MD5", ⟨0x00, 0x04⟩,
    GNUTLS_CIPHER_ARCFOUR_128, GNUTLS_KX_RSA, GNUTLS_MAC_MD5, GNUTLS_SSL3⟩,
   ⟨"GNUTLS_RSA_3DES_EDE_CBC_SHA", ⟨0x00, 0x0A⟩,
    GNUTLS_CIPHER_3DES_CBC, GNUTLS_KX_RSA, GNUTLS_MAC_SHA, GNUTLS_SSL3⟩,
   ⟨"GNUTLS_RSA_AES_128_CBC_SHA", ⟨0x00, 0x2F⟩,
    GNUTLS_CIPHER_AES_128_CBC, GNUTLS_KX_RSA, GNUTLS_MAC_SHA, GNUTLS_SSL3⟩,
   ⟨"GNUTLS_RSA_AES_256_CBC_SHA", ⟨0x00, 0x35⟩,
    GNUTLS_CIPHER_AES_256_CBC, GNUTLS_KX_RSA, GNUTLS_MAC_SHA, GNUTLS_SSL3⟩,
   ⟨"GNUTLS_RSA_TWOFISH_128_CBC_SHA", ⟨0xFF, 0x51⟩,
    GNUTLS_CIPHER_TWOFISH_128_CBC, GNUTLS_KX_RSA, GNUTLS_MAC_SHA, GNUTLS_TLS1⟩]

/-- Modelled from the spec: the per-session data consumed by this layer
(the `gnutls_session` internals struct is not part of the excerpt).  It
carries the four ordered priority lists, the `enable_private` flag and
the negotiated/target protocol version (the value
`gnutls_protocol_get_version` reads). -/
structure gnutls_session where
  kx_algorithm_priority : List Nat
  cipher_algorithm_priority : List Nat
  mac_algorithm_priority : List Nat
  compression_method_priority : List Nat
  enable_private : Bool
  version : Nat
deriving DecidableEq, Repr

/-- The common first-index scan of the three priority functions: walk the
priority list with counter `i`, return the counter at the first
occurrence of `algorithm`, or -1 when the list is exhausted. -/
def priority_scan (prio : List Nat) (algorithm : Nat) (i : Nat) : Int :=
  match prio with
  | [] => -1
  | x :: rest => if x = algorithm then (i : Int) else priority_scan rest algorithm (i + 1)

/-- `_gnutls_kx_priority`. -/
def _gnutls_kx_priority (session : gnutls_session) (algorithm : Nat) : Int :=
  priority_scan session.kx_algorithm_priority algorithm 0

/-- `_gnutls_cipher_priority`. -/
def _gnutls_cipher_priority (session : gnutls_session) (algorithm : Nat) : Int :=
  priority_scan session.cipher_algorithm_priority algorithm 0

/-- `_gnutls_mac_priority`. -/
def _gnutls_mac_priority (session : gnutls_session) (algorithm : Nat) : Int :=
  priority_scan session.mac_algorithm_priority algorithm 0

/-- `_gnutls_compression_priority`. -/
def _gnutls_compression_priority (session : gnutls_session) (algorithm : Nat) : Int :=
  priority_scan session.compression_method_priority algorithm 0

/-- `_gnutls_mac_get_digest_size`: first matching row's digest size, 0
when absent (`GNUTLS_HASH_ALG_LOOP`). -/
def _gnutls_mac_get_digest_size (algorithm : Nat) : Nat :=
  ((hash_algorithms.find? (fun p => p.id == algorithm)).map (·.digestsize)).getD 0

/-- `_gnutls_cipher_get_block_size`: 0 when absent (`GNUTLS_ALG_LOOP`). -/
def _gnutls_cipher_get_block_size (algorithm : Nat) : Nat :=
  ((algorithms.find? (fun p => p.id == algorithm)).map (·.blocksize)).getD 0

/-- `gnutls_cipher_get_key_size`: 0 when absent. -/
def gnutls_cipher_get_key_size (algorithm : Nat) : Nat :=
  ((algorithms.find? (fun p => p.id == algorithm)).map (·.keysize)).getD 0

/-- `_gnutls_cipher_get_iv_size`: 0 when absent. -/
def _gnutls_cipher_get_iv_size (algorithm : Nat) : Nat :=
  ((algorithms.find? (fun p => p.id == algorithm)).map (·.iv)).getD 0

/-- `_gnutls_compression_get_num`: the TLS wire number of a compression
method, -1 when absent (`GNUTLS_COMPRESSION_ALG_LOOP`). -/
def _gnutls_compression_get_num (algorithm : Nat) : Int :=
  ((_gnutls_compression_algorithms.find? (fun p => p.id == algorithm)).map
    (fun p => (p.num : Int))).getD (-1)

/-- `_gnutls_compression_get_id`: the internal id for a TLS wire number,
-1 when absent (`GNUTLS_COMPRESSION_ALG_LOOP_NUM`). -/
def _gnutls_compression_get_id (num : Int) : Int :=
  ((_gnutls_compression_algorithms.find? (fun p => (p.num : Int) == num)).map
    (fun p => (p.id : Int))).getD (-1)

/-- `_gnutls_map_kx_get_kx`: both the `server` and the client branch run
`GNUTLS_KX_MAP_ALG_LOOP_SERVER` (the C source uses the server-side loop
in the `else` branch as well), a first-match scan on `server_type`. -/
def _gnutls_map_kx_get_kx (type : Nat) (server : Bool) : Int :=
  if server then
    ((cred_mappings.find? (fun p => p.server_type == type)).map
      (fun p => (p.algorithm : Int))).getD (-1)
  else
    ((cred_mappings.find? (fun p => p.server_type == type)).map
      (fun p => (p.algorithm : Int))).getD (-1)

/-- `_gnutls_map_kx_get_cred`: first match on `algorithm`, returning the
server- or client-side credential type. -/
def _gnutls_map_kx_get_cred (algorithm : Nat) (server : Bool) : Int :=
  if server then
    ((cred_mappings.find? (fun p => p.algorithm == algorithm)).map
      (fun p => (p.server_type : Int))).getD (-1)
  else
    ((cred_mappings.find? (fun p => p.algorithm == algorithm)).map
      (fun p => (p.client_type : Int))).getD (-1)

/-- `_gnutls_cipher_suite_get_cipher_algo`: first row of `cs_algorithms`
whose 2-byte id equals `suite`; 0 when absent
(`GNUTLS_CIPHER_SUITE_ALG_LOOP`). -/
def _gnutls_cipher_suite_get_cipher_algo (suite : GNUTLS_CipherSuite) : Nat :=
  ((cs_algorithms.find? (fun p => p.id == suite)).map (·.block_algorithm)).getD 0

/-- `_gnutls_cipher_suite_get_version`: 0 when absent. -/
def _gnutls_cipher_suite_get_version (suite : GNUTLS_CipherSuite) : Nat :=
  ((cs_algorithms.find? (fun p => p.id == suite)).map (·.version)).getD 0

/-- `_gnutls_cipher_suite_get_kx_algo`: 0 when absent. -/
def _gnutls_cipher_suite_get_kx_algo (suite : GNUTLS_CipherSuite) : Nat :=
  ((cs_algorithms.find? (fun p => p.id == suite)).map (·.kx_algorithm)).getD 0

/-- `_gnutls_cipher_suite_get_mac_algo`: 0 when absent. -/
def _gnutls_cipher_suite_get_mac_algo (suite : GNUTLS_CipherSuite) : Nat :=
  ((cs_algorithms.find? (fun p => p.id == suite)).map (·.mac_algorithm)).getD 0

/-- `gnutls_cipher_suite_get_name`: scans the whole table without a
break (`GNUTLS_CIPHER_SUITE_LOOP`), so the LAST row matching all three
algorithms wins; returns the row name without the `GNUTLS_` prefix, or
none. -/
def gnutls_cipher_suite_get_name (kx_algorithm cipher_algorithm mac_algorithm : Nat) :
    Option String :=
  cs_algorithms.foldl
    (fun ret p =>
      if kx_algorithm = p.kx_algorithm && cipher_algorithm = p.block_algorithm &&
          mac_algorithm = p.mac_algorithm then
        some (p.name.drop "GNUTLS_".length)
      else ret)
    none

/-- The suite id found by the same breakless scan as
`gnutls_cipher_suite_get_name` (spec 4.4 `suite_id_for`): the last row of
`cs_algorithms` matching the (kx, cipher, mac) triple. -/
def suite_id_for (kx_algorithm cipher_algorithm mac_algorithm : Nat) :
    Option GNUTLS_CipherSuite :=
  cs_algorithms.foldl
    (fun ret p =>
      if kx_algorithm = p.kx_algorithm && cipher_algorithm = p.block_algorithm &&
          mac_algorithm = p.mac_algorithm then
        some p.id
      else ret)
    none

/-- The per-suite filter of `_gnutls_supported_ciphersuites`, in the
order of the C `continue` tests: private (0xFF-prefixed) suites are
dropped when `enable_private` is off, suites whose minimum version
exceeds the session's version are dropped, and suites whose kx, mac, or
cipher priority is negative are dropped. -/
def suite_survives (session : gnutls_session) (c : GNUTLS_CipherSuite) : Bool :=
  !(!session.enable_private && c.b0 == 0xFF) &&
  !(decide (session.version < _gnutls_cipher_suite_get_version c)) &&
  !(decide (_gnutls_kx_priority session (_gnutls_cipher_suite_get_kx_algo c) < 0)) &&
  !(decide (_gnutls_mac_priority session (_gnutls_cipher_suite_get_mac_algo c) < 0)) &&
  !(decide (_gnutls_cipher_priority session (_gnutls_cipher_suite_get_cipher_algo c) < 0))

/-- `_gnutls_supported_ciphersuites`: copies the ids of the static table
and keeps the survivors of `suite_survives` in table order.  The C
function returns a count plus an out-parameter array; `Except` models
the (negative error, filled array) pair.  An empty survivor set returns
`GNUTLS_E_NO_CIPHER_SUITES` (the C `count == 0` early return for an
empty static table is kept, although `cs_algorithms` is nonempty). -/
def _gnutls_supported_ciphersuites (session : gnutls_session) :
    Except Int (List GNUTLS_CipherSuite) :=
  if cs_algorithms.length = 0 then .ok []
  else if ((cs_algorithms.map (·.id)).filter (suite_survives session)).length = 0 then
    .error GNUTLS_E_NO_CIPHER_SUITES
  else .ok ((cs_algorithms.map (·.id)).filter (suite_survives session))

/-- `MIN_PRIVATE_COMP_ALGO`. -/
def MIN_PRIVATE_COMP_ALGO : Int := 0xEF

/-- The i/j loop of `_gnutls_supported_compression_methods`: walk the
compression priority list, look up each wire number, skip the entry when
the lookup fails (-1) or when private numbers are disabled and the
number is in the private range, otherwise emit the number cast to a
byte. -/
def comp_methods_scan (session : gnutls_session) : List Nat → List Nat
  | [] => []
  | a :: rest =>
    let tmp := _gnutls_compression_get_num a
    if tmp = -1 ∨ (session.enable_private = false ∧ MIN_PRIVATE_COMP_ALGO ≤ tmp) then
      comp_methods_scan session rest
    else (tmp % 256).toNat :: comp_methods_scan session rest

/-- `_gnutls_supported_compression_methods`: the surviving wire numbers
in priority order; an empty result returns
`GNUTLS_E_NO_COMPRESSION_ALGORITHMS`. -/
def _gnutls_supported_compression_methods (session : gnutls_session) :
    Except Int (List Nat) :=
  if (comp_methods_scan session session.compression_method_priority).length = 0 then
    .error GNUTLS_E_NO_COMPRESSION_ALGORITHMS
  else .ok (comp_methods_scan session session.compression_method_priority)

/-- The combined 64/8/1 priority score that `_gnutls_compare_algo`
computes for each suite. -/
def suite_score (session : gnutls_session) (c : GNUTLS_CipherSuite) : Int :=
  (_gnutls_kx_priority session (_gnutls_cipher_suite_get_kx_algo c) + 1) * 64 +
    (_gnutls_cipher_priority session (_gnutls_cipher_suite_get_cipher_algo c) + 1) * 8 +
    _gnutls_mac_priority session (_gnutls_cipher_suite_get_mac_algo c)

/-- `_gnutls_compare_algo`: the qsort comparator, written as in the C
source (decompose both suites, accumulate p1 and p2, compare). -/
def _gnutls_compare_algo (session : gnutls_session) (i_A1 i_A2 : GNUTLS_CipherSuite) : Int :=
  let kA1 := _gnutls_cipher_suite_get_kx_algo i_A1
  let kA2 := _gnutls_cipher_suite_get_kx_algo i_A2
  let cA1 := _gnutls_cipher_suite_get_cipher_algo i_A1
  let cA2 := _gnutls_cipher_suite_get_cipher_algo i_A2
  let mA1 := _gnutls_cipher_suite_get_mac_algo i_A1
  let mA2 := _gnutls_cipher_suite_get_mac_algo i_A2
  let p1 := (_gnutls_kx_priority session kA1 + 1) * 64 +
    (_gnutls_cipher_priority session cA1 + 1) * 8 + _gnutls_mac_priority session mA1
  let p2 := (_gnutls_kx_priority session kA2 + 1) * 64 +
    (_gnutls_cipher_priority session cA2 + 1) * 8 + _gnutls_mac_priority session mA2
  if p1 > p2 then 1 else if p1 = p2 then 0 else -1

/-- The comparator induced by a score function; `_gnutls_compare_algo
session` is exactly `keyCmp (suite_score session)`. -/
def keyCmp {α : Type} (key : α → Int) (x y : α) : Int :=
  if key x > key y then 1 else if key x = key y then 0 else -1

theorem compare_algo_eq_keyCmp (session : gnutls_session) :
    _gnutls_compare_algo session = keyCmp (suite_score session) := rfl

theorem keyCmp_le_zero {α : Type} (key : α → Int) (x y : α) :
    keyCmp key x y ≤ 0 ↔ key x ≤ key y := by
  unfold keyCmp; split_ifs with h1 h2 <;> omega

theorem keyCmp_ge_zero {α : Type} (key : α → Int) (x y : α) :
    0 ≤ keyCmp key x y ↔ key y ≤ key x := by
  unfold keyCmp; split_ifs with h1 h2 <;> omega

theorem keyCmp_pos {α : Type} (key : α → Int) (x y : α) :
    0 < keyCmp key x y ↔ key y < key x := by
  unfold keyCmp; split_ifs with h1 h2 <;> omega

theorem keyCmp_neg {α : Type} (key : α → Int) (x y : α) :
    keyCmp key x y < 0 ↔ key x < key y := by
  unfold keyCmp; split_ifs with h1 h2 <;> omega

/- List helpers for the in-place sort model: element swap and the
`getD`/`set` facts the partition invariants need. -/

theorem getD_set_self {α : Type} [Inhabited α] (l : List α) (i : Nat) (a : α)
    (h : i < l.length) : (l.set i a).getD i default = a := by
  induction l generalizing i with
  | nil => simp at h
  | cons x xs ih =>
    cases i with
    | zero => simp [List.set, List.getD]
    | succ n =>
      simp only [List.set, List.getD_cons_succ]
      exact ih n (by simpa using h)

theorem getD_set_ne {α : Type} [Inhabited α] (l : List α) (i j : Nat) (a : α)
    (h : i ≠ j) : (l.set i a).getD j default = l.getD j default := by
  induction l generalizing i j with
  | nil => simp [List.set]
  | cons x xs ih =>
    cases i with
    | zero =>
      cases j with
      | zero => exact absurd rfl h
      | succ m => simp [List.set, List.getD]
    | succ n =>
      cases j with
      | zero => simp [List.set, List.getD]
      | succ m =>
        simp only [List.set, List.getD_cons_succ]
        exact ih n m (by omega)

theorem getD_mem {α : Type} [Inhabited α] (l : List α) (i : Nat)
    (h : i < l.length) : l.getD i default ∈ l := by
  induction l generalizing i with
  | nil => simp at h
  | cons x xs ih =>
    cases i with
    | zero => simp [List.getD]
    | succ n =>
      simp only [List.getD_cons_succ]
      exact List.mem_cons_of_mem x (ih n (by simpa using h))

theorem mem_of_mem_set {α : Type} (l : List α) (i : Nat) (a x : α)
    (hx : x ∈ l.set i a) : x ∈ l ∨ x = a := by
  induction l generalizing i with
  | nil => simp [List.set] at hx
  | cons y ys ih =>
    cases i with
    | zero =>
      rcases List.mem_cons.mp hx with h | h
      · exact Or.inr h
      · exact Or.inl (List.mem_cons_of_mem y h)
    | succ n =>
      rcases List.mem_cons.mp hx with h | h
      · exact Or.inl (h ▸ List.mem_cons_self y ys)
      · rcases ih n h with h' | h'
        · exact Or.inl (List.mem_cons_of_mem y h')
        · exact Or.inr h'

/-- The `SWAP` macro at record granularity: exchange elements `i` and
`j`. -/
def swapL {α : Type} [Inhabited α] (l : List α) (i j : Nat) : List α :=
  (l.set i (l.getD j default)).set j (l.getD i default)

theorem length_swapL {α : Type} [Inhabited α] (l : List α) (i j : Nat) :
    (swapL l i j).length = l.length := by
  simp [swapL]

theorem getD_swapL_fst {α : Type} [Inhabited α] (l : List α) (i j : Nat)
    (hij : i ≠ j) (hi : i < l.length) :
    (swapL l i j).getD i default = l.getD j default := by
  unfold swapL
  rw [getD_set_ne _ j i _ (Ne.symm hij), getD_set_self _ _ _ hi]

theorem getD_swapL_snd {α : Type} [Inhabited α] (l : List α) (i j : Nat)
    (hj : j < l.length) :
    (swapL l i j).getD j default = l.getD i default := by
  unfold swapL
  rw [getD_set_self]
  simpa using hj

theorem getD_swapL_other {α : Type} [Inhabited α] (l : List α) (i j k : Nat)
    (hik : k ≠ i) (hjk : k ≠ j) :
    (swapL l i j).getD k default = l.getD k default := by
  unfold swapL
  rw [getD_set_ne _ j k _ (Ne.symm hjk), getD_set_ne _ i k _ (Ne.symm hik)]

theorem mem_of_mem_swapL {α : Type} [Inhabited α] (l : List α) (i j : Nat)
    (hi : i < l.length) (hj : j < l.length) (x : α) (hx : x ∈ swapL l i j) :
    x ∈ l := by
  unfold swapL at hx
  rcases mem_of_mem_set _ _ _ _ hx with h | h
  · rcases mem_of_mem_set _ _ _ _ h with h' | h'
    · exact h'
    · exact h' ▸ getD_mem l j hj
  · exact h ▸ getD_mem l i hi

/-- The first inner loop of `_gnutls_partition`: advance `i` (in record
units) while the element compares `<= 0` against the pivot value and
`i < full`. -/
def scan_up {α : Type} [Inhabited α] (cmp : α → α → Int) (l : List α) (ptmp : α)
    (full : Nat) (i : Nat) : Nat :=
  if h : i < full ∧ cmp (l.getD i default) ptmp ≤ 0 then
    scan_up cmp l ptmp full (i + 1)
  else i
termination_by full - i
decreasing_by omega

/-- The second inner loop of `_gnutls_partition`: decrease `j` while the
element compares `>= 0` against the pivot value and `j > 0`. -/
def scan_down {α : Type} [Inhabited α] (cmp : α → α → Int) (l : List α) (ptmp : α)
    (j : Nat) : Nat :=
  if h : 0 < j ∧ 0 ≤ cmp (l.getD j default) ptmp then
    scan_down cmp l ptmp (j - 1)
  else j
termination_by j
decreasing_by omega

theorem scan_up_ge {α : Type} [Inhabited α] (cmp : α → α → Int) (l : List α) (ptmp : α)
    (full i : Nat) : i ≤ scan_up cmp l ptmp full i := by
  rw [scan_up]
  split
  next h => exact le_trans (by omega) (scan_up_ge cmp l ptmp full (i + 1))
  next => exact le_rfl
termination_by full - i
decreasing_by omega

theorem scan_up_le {α : Type} [Inhabited α] (cmp : α → α → Int) (l : List α) (ptmp : α)
    (full i : Nat) (hi : i ≤ full) : scan_up cmp l ptmp full i ≤ full := by
  rw [scan_up]
  split
  next h => exact scan_up_le cmp l ptmp full (i + 1) (by omega)
  next => exact hi
termination_by full - i
decreasing_by omega

theorem scan_up_stop {α : Type} [Inhabited α] (cmp : α → α → Int) (l : List α) (ptmp : α)
    (full i : Nat) (hi : i ≤ full) :
    scan_up cmp l ptmp full i = full ∨
      0 < cmp (l.getD (scan_up cmp l ptmp full i) default) ptmp := by
  rw [scan_up]
  split
  next h => exact scan_up_stop cmp l ptmp full (i + 1) (by omega)
  next h =>
    rcases Nat.lt_or_ge i full with h' | h'
    · right
      have : ¬ cmp (l.getD i default) ptmp ≤ 0 := fun hc => h ⟨h', hc⟩
      omega
    · left; omega
termination_by full - i
decreasing_by omega

theorem scan_up_region {α : Type} [Inhabited α] (key : α → Int) (l : List α) (ptmp : α)
    (full i : Nat) (hL : ∀ k, k < i → key (l.getD k default) ≤ key ptmp) :
    ∀ k, k < scan_up (keyCmp key) l ptmp full i → key (l.getD k default) ≤ key ptmp := by
  rw [scan_up]
  split
  next h =>
    refine scan_up_region key l ptmp full (i + 1) ?_
    intro k hk
    rcases Nat.lt_or_ge k i with h' | h'
    · exact hL k h'
    · have hk' : k = i := by omega
      subst hk'
      exact (keyCmp_le_zero key _ _).mp h.2
  next => exact hL
termination_by full - i
decreasing_by omega

theorem scan_up_pos {α : Type} [Inhabited α] (cmp : α → α → Int) (l : List α) (ptmp : α)
    (full : Nat) (hfull : 0 < full) (hc : cmp (l.getD 0 default) ptmp ≤ 0) :
    1 ≤ scan_up cmp l ptmp full 0 := by
  rw [scan_up]
  split
  next h => exact scan_up_ge cmp l ptmp full 1
  next h => exact absurd ⟨hfull, hc⟩ h

theorem scan_down_le {α : Type} [Inhabited α] (cmp : α → α → Int) (l : List α) (ptmp : α)
    (j : Nat) : scan_down cmp l ptmp j ≤ j := by
  rw [scan_down]
  split
  next h => exact le_trans (scan_down_le cmp l ptmp (j - 1)) (by omega)
  next => exact le_rfl
termination_by j
decreasing_by omega

theorem scan_down_stop {α : Type} [Inhabited α] (cmp : α → α → Int) (l : List α) (ptmp : α)
    (j : Nat) :
    scan_down cmp l ptmp j = 0 ∨
      cmp (l.getD (scan_down cmp l ptmp j) default) ptmp < 0 := by
  rw [scan_down]
  split
  next h => exact scan_down_stop cmp l ptmp (j - 1)
  next h =>
    rcases Nat.eq_zero_or_pos j with h' | h'
    · left; omega
    · right
      have : ¬ 0 ≤ cmp (l.getD j default) ptmp := fun hc => h ⟨h', hc⟩
      omega
termination_by j
decreasing_by omega

theorem scan_down_region {α : Type} [Inhabited α] (key : α → Int) (l : List α) (ptmp : α)
    (full j : Nat) (hj : j ≤ full)
    (hR : ∀ k, j < k → k ≤ full → key ptmp ≤ key (l.getD k default)) :
    ∀ k, scan_down (keyCmp key) l ptmp j < k → k ≤ full →
      key ptmp ≤ key (l.getD k default) := by
  rw [scan_down]
  split
  next h =>
    refine scan_down_region key l ptmp full (j - 1) (by omega) ?_
    intro k hk hk'
    rcases Nat.lt_or_ge j k with h' | h'
    · exact hR k h' hk'
    · have hk'' : k = j := by omega
      subst hk''
      exact (keyCmp_ge_zero key _ _).mp h.2
  next => exact hR
termination_by j
decreasing_by omega

theorem scan_down_first {α : Type} [Inhabited α] (cmp : α → α → Int) (l : List α)
    (ptmp : α) (j : Nat) (hj : 0 < j) (hc : 0 ≤ cmp (l.getD j default) ptmp) :
    scan_down cmp l ptmp j ≤ j - 1 := by
  rw [scan_down]
  split
  next h => exact scan_down_le cmp l ptmp (j - 1)
  next h => exact absurd ⟨hj, hc⟩ h

/-- Each iteration of the partition outer loop strictly decreases
`2*((full-i)+j)` plus the "element at `i` compares above the pivot"
indicator: either a scan moved an index, or both scans stalled, in which
case the swap replaces the `> pivot` element at `i` by a `< pivot`
one. -/
theorem part_measure_dec {α : Type} [Inhabited α] (cmp : α → α → Int) (l : List α)
    (ptmp : α) (full i j : Nat) (hlen : l.length = full + 1)
    (hi : i ≤ full) (hj : j ≤ full) (h : i < j)
    (h' : scan_up cmp l ptmp full i < scan_down cmp l ptmp j) :
    2 * ((full - scan_up cmp l ptmp full i) + scan_down cmp l ptmp j) +
      (if 0 < cmp ((swapL l (scan_up cmp l ptmp full i) (scan_down cmp l ptmp j)).getD
        (scan_up cmp l ptmp full i) default) ptmp then 1 else 0) <
    2 * ((full - i) + j) + (if 0 < cmp (l.getD i default) ptmp then 1 else 0) := by
  have hig := scan_up_ge cmp l ptmp full i
  have hil := scan_up_le cmp l ptmp full i hi
  have hjl := scan_down_le cmp l ptmp j
  by_cases hp : i < scan_up cmp l ptmp full i ∨ scan_down cmp l ptmp j < j
  · have h1 : (if 0 < cmp ((swapL l (scan_up cmp l ptmp full i)
        (scan_down cmp l ptmp j)).getD (scan_up cmp l ptmp full i) default)
        ptmp then 1 else 0) ≤ 1 := by split <;> omega
    have h2 : 0 ≤ (if 0 < cmp (l.getD i default) ptmp then 1 else 0) := by
      split <;> omega
    omega
  · push_neg at hp
    obtain ⟨hp1, hp2⟩ := hp
    have hieq : scan_up cmp l ptmp full i = i := by omega
    have hjeq : scan_down cmp l ptmp j = j := by omega
    have hstopu := scan_up_stop cmp l ptmp full i hi
    have hstopd := scan_down_stop cmp l ptmp j
    rw [hieq] at hstopu
    rw [hjeq] at hstopd
    simp only [hieq, hjeq]
    have hifull : i < full := lt_of_lt_of_le h hj
    have hcu : 0 < cmp (l.getD i default) ptmp := by
      rcases hstopu with h'' | h''
      · omega
      · exact h''
    have hcd : cmp (l.getD j default) ptmp < 0 := by
      rcases hstopd with h'' | h''
      · omega
      · exact h''
    have e1 : (swapL l i j).getD i default = l.getD j default :=
      getD_swapL_fst l i j (by omega) (by omega)
    rw [e1]
    have hif1 : (if 0 < cmp (l.getD i default) ptmp then 1 else 0) = 1 := if_pos hcu
    have hif2 : (if 0 < cmp (l.getD j default) ptmp then 1 else 0) = 0 :=
      if_neg (by omega)
    omega

/-- The outer loop of `_gnutls_partition` (`while (i < j)`): run both
inner scans, swap and continue while the indices have not crossed.  The
index bounds are carried as arguments; they hold at the entry call and
are preserved, and the loop terminates because every iteration either
moves an index or swaps a `> pivot` element out of position `i`. -/
def part_loop {α : Type} [Inhabited α] (cmp : α → α → Int) (ptmp : α) (full : Nat)
    (l : List α) (i j : Nat) (hlen : l.length = full + 1) (hi : i ≤ full)
    (hj : j ≤ full) : List α × Nat × Nat :=
  if h : i < j then
    if h' : scan_up cmp l ptmp full i < scan_down cmp l ptmp j then
      part_loop cmp ptmp full
        (swapL l (scan_up cmp l ptmp full i) (scan_down cmp l ptmp j))
        (scan_up cmp l ptmp full i) (scan_down cmp l ptmp j)
        (by rw [length_swapL]; exact hlen)
        (scan_up_le cmp l ptmp full i hi)
        (le_trans (scan_down_le cmp l ptmp j) hj)
    else (l, scan_up cmp l ptmp full i, scan_down cmp l ptmp j)
  else (l, i, j)
termination_by 2 * ((full - i) + j) + (if 0 < cmp (l.getD i default) ptmp then 1 else 0)
decreasing_by
  exact part_measure_dec cmp l ptmp full i j hlen hi hj h h'

/-- `_gnutls_partition`: pivot on element 0, run the crossing scans, and
place the pivot with the final fix-up.  In the C source the fix-up is
`if (j > pivot) {swap; pivot = j} else if (i < pivot) {swap; pivot = i}`
with `pivot = 0` throughout the loop; `i` and `j` are unsigned, so the
`i < 0` branch is dead and is dropped here.  Requires at least two
records, which is what `_gnutls_qsort` guarantees at its only call. -/
def _gnutls_partition {α : Type} [Inhabited α] (cmp : α → α → Int) (l : List α) :
    List α × Nat :=
  if h : 2 ≤ l.length then
    if 0 < (part_loop cmp (l.getD 0 default) (l.length - 1) l 0 (l.length - 1)
        (by omega) (by omega) le_rfl).2.2 then
      (swapL (part_loop cmp (l.getD 0 default) (l.length - 1) l 0 (l.length - 1)
          (by omega) (by omega) le_rfl).1 0
        (part_loop cmp (l.getD 0 default) (l.length - 1) l 0 (l.length - 1)
          (by omega) (by omega) le_rfl).2.2,
       (part_loop cmp (l.getD 0 default) (l.length - 1) l 0 (l.length - 1)
          (by omega) (by omega) le_rfl).2.2)
    else
      ((part_loop cmp (l.getD 0 default) (l.length - 1) l 0 (l.length - 1)
          (by omega) (by omega) le_rfl).1, 0)
  else (l, 0)

/-- What holds of the partition loop state when it exits, relative to the
entry state `(l, i, j)`. -/
def part_loop_post {α : Type} [Inhabited α] (key : α → Int) (ptmp : α) (full : Nat)
    (l : List α) (i j : Nat) (r : List α × Nat × Nat) : Prop :=
  r.1.length = full + 1 ∧
  r.1.getD 0 default = ptmp ∧
  r.2.2 ≤ j ∧
  r.2.2 ≤ r.2.1 ∧
  r.2.1 ≤ full ∧
  (∀ k, k < r.2.1 → key (r.1.getD k default) ≤ key ptmp) ∧
  (∀ k, r.2.2 < k → k ≤ full → key ptmp ≤ key (r.1.getD k default)) ∧
  (i < j → (r.2.2 = 0 ∨ key (r.1.getD r.2.2 default) < key ptmp)) ∧
  (i < j → r.2.2 ≤ scan_down (keyCmp key) l ptmp j) ∧
  (∀ x ∈ r.1, x ∈ l)

theorem part_loop_spec {α : Type} [Inhabited α] (key : α → Int) (ptmp : α) (full : Nat)
    (l : List α) (i j : Nat) (hlen : l.length = full + 1) (hi : i ≤ full) (hj : j ≤ full)
    (h0 : l.getD 0 default = ptmp)
    (hL : ∀ k, k < i → key (l.getD k default) ≤ key ptmp)
    (hR : ∀ k, j < k → k ≤ full → key ptmp ≤ key (l.getD k default)) :
    part_loop_post key ptmp full l i j
      (part_loop (keyCmp key) ptmp full l i j hlen hi hj) := by
  rw [part_loop]
  split
  next h =>
    split
    next h' =>
      have hu1 : 1 ≤ scan_up (keyCmp key) l ptmp full i := by
        rcases Nat.eq_zero_or_pos i with hz | hz
        · subst hz
          refine scan_up_pos (keyCmp key) l ptmp full (by omega) ?_
          rw [h0]
          exact (keyCmp_le_zero key ptmp ptmp).mpr le_rfl
        · exact le_trans hz (scan_up_ge (keyCmp key) l ptmp full i)
      have hul : scan_up (keyCmp key) l ptmp full i ≤ full :=
        scan_up_le (keyCmp key) l ptmp full i hi
      have hvl : scan_down (keyCmp key) l ptmp j ≤ j :=
        scan_down_le (keyCmp key) l ptmp j
      have IH := part_loop_spec key ptmp full
        (swapL l (scan_up (keyCmp key) l ptmp full i) (scan_down (keyCmp key) l ptmp j))
        (scan_up (keyCmp key) l ptmp full i) (scan_down (keyCmp key) l ptmp j)
        (by rw [length_swapL]; exact hlen)
        (scan_up_le (keyCmp key) l ptmp full i hi)
        (le_trans (scan_down_le (keyCmp key) l ptmp j) hj)
        (by
          rw [getD_swapL_other l _ _ 0 (by omega) (by omega)]
          exact h0)
        (by
          intro k hk
          rw [getD_swapL_other l _ _ k (by omega) (by omega)]
          exact scan_up_region key l ptmp full i hL k hk)
        (by
          intro k hk hk'
          rw [getD_swapL_other l _ _ k (by omega) (by omega)]
          exact scan_down_region key l ptmp full j hj hR k hk hk')
      obtain ⟨a1, a2, a3, a4, a5, a6, a7, a8, a10, a9⟩ := IH
      refine ⟨a1, a2, le_trans a3 hvl, a4, a5, a6, a7, fun _ => a8 h', fun _ => a3,
        fun x hx => ?_⟩
      exact mem_of_mem_swapL l _ _ (by omega) (by omega) x (a9 x hx)
    next h' =>
      refine ⟨hlen, h0, scan_down_le (keyCmp key) l ptmp j, Nat.le_of_not_lt h',
        scan_up_le (keyCmp key) l ptmp full i hi,
        scan_up_region key l ptmp full i hL,
        scan_down_region key l ptmp full j hj hR,
        fun _ => ?_, fun _ => le_rfl, fun x hx => hx⟩
      rcases scan_down_stop (keyCmp key) l ptmp j with hs | hs
      · exact Or.inl hs
      · exact Or.inr ((keyCmp_neg key _ _).mp hs)
  next h =>
    exact ⟨hlen, h0, le_rfl, Nat.le_of_not_lt h, hi, hL, hR, fun hij => absurd hij h,
      fun hij => absurd hij h, fun x hx => hx⟩
termination_by 2 * ((full - i) + j) + (if 0 < keyCmp key (l.getD i default) ptmp then 1 else 0)
decreasing_by
  rename_i hA hB
  exact part_measure_dec (keyCmp key) l ptmp full i j hlen hi hj hA hB

set_option maxHeartbeats 1600000 in
theorem partition_spec {α : Type} [Inhabited α] (key : α → Int) (l : List α)
    (hl : 2 ≤ l.length) :
    ((_gnutls_partition (keyCmp key) l).1.length = l.length) ∧
    ((_gnutls_partition (keyCmp key) l).2 < l.length) ∧
    (∀ k, k ≤ (_gnutls_partition (keyCmp key) l).2 →
      key ((_gnutls_partition (keyCmp key) l).1.getD k default) ≤
        key ((_gnutls_partition (keyCmp key) l).1.getD
          (_gnutls_partition (keyCmp key) l).2 default)) ∧
    (∀ k, (_gnutls_partition (keyCmp key) l).2 < k → k < l.length →
      key ((_gnutls_partition (keyCmp key) l).1.getD
          (_gnutls_partition (keyCmp key) l).2 default) ≤
        key ((_gnutls_partition (keyCmp key) l).1.getD k default)) ∧
    (∀ x ∈ (_gnutls_partition (keyCmp key) l).1, x ∈ l) := by
  obtain ⟨P1, P2, P3, P4, P5, P6, P7, P8, P10, P9⟩ :=
    part_loop_spec key (l.getD 0 default) (l.length - 1) l 0 (l.length - 1)
      (by omega) (by omega) le_rfl rfl
      (fun k hk => absurd hk (Nat.not_lt_zero k))
      (fun k hk hk' => absurd (lt_of_le_of_lt hk' hk) (lt_irrefl k))
  have hfull : 0 < l.length - 1 := by omega
  have hPfix := P8 hfull
  unfold _gnutls_partition
  rw [dif_pos hl]
  split
  next hc =>
    have hlen1 : l.length - 1 + 1 = l.length := by omega
    refine ⟨by rw [length_swapL]; omega, by omega, ?_, ?_, ?_⟩
    · intro k hk
      have hpv : (swapL (part_loop (keyCmp key) (l.getD 0 default) (l.length - 1) l 0
          (l.length - 1) (by omega) (by omega) le_rfl).1 0
          (part_loop (keyCmp key) (l.getD 0 default) (l.length - 1) l 0
          (l.length - 1) (by omega) (by omega) le_rfl).2.2).getD
          (part_loop (keyCmp key) (l.getD 0 default) (l.length - 1) l 0
          (l.length - 1) (by omega) (by omega) le_rfl).2.2 default =
          (part_loop (keyCmp key) (l.getD 0 default) (l.length - 1) l 0
          (l.length - 1) (by omega) (by omega) le_rfl).1.getD 0 default :=
        getD_swapL_snd _ 0 _ (by omega)
      rw [hpv, P2]
      rcases Nat.eq_or_lt_of_le hk with he | hlt
      · rw [he, hpv, P2]
      · rcases Nat.eq_zero_or_pos k with hz | hz
        · subst hz
          rw [getD_swapL_fst _ 0 _ (by omega) (by omega)]
          rcases hPfix with hz' | hlt'
          · omega
          · exact le_of_lt hlt'
        · rw [getD_swapL_other _ _ _ k (by omega) (by omega)]
          exact P6 k (by omega)
    · intro k hk hk'
      have hpv : (swapL (part_loop (keyCmp key) (l.getD 0 default) (l.length - 1) l 0
          (l.length - 1) (by omega) (by omega) le_rfl).1 0
          (part_loop (keyCmp key) (l.getD 0 default) (l.length - 1) l 0
          (l.length - 1) (by omega) (by omega) le_rfl).2.2).getD
          (part_loop (keyCmp key) (l.getD 0 default) (l.length - 1) l 0
          (l.length - 1) (by omega) (by omega) le_rfl).2.2 default =
          (part_loop (keyCmp key) (l.getD 0 default) (l.length - 1) l 0
          (l.length - 1) (by omega) (by omega) le_rfl).1.getD 0 default :=
        getD_swapL_snd _ 0 _ (by omega)
      rw [hpv, P2]
      rw [getD_swapL_other _ _ _ k (by omega) (by omega)]
      exact P7 k hk (by omega)
    · intro x hx
      exact P9 x (mem_of_mem_swapL _ 0 _ (by omega) (by omega) x hx)
  next hc =>
    have hj0 : (part_loop (keyCmp key) (l.getD 0 default) (l.length - 1) l 0
        (l.length - 1) (by omega) (by omega) le_rfl).2.2 = 0 := by omega
    refine ⟨?_, ?_, ?_, ?_, P9⟩
    · show (part_loop (keyCmp key) (l.getD 0 default) (l.length - 1) l 0
        (l.length - 1) (by omega) (by omega) le_rfl).1.length = l.length
      omega
    · show 0 < l.length
      omega
    · intro k hk
      have hk1 : k ≤ 0 := hk
      have hk0 : k = 0 := by omega
      subst hk0
      exact le_rfl
    · intro k hk hk'
      have hk2 : 0 < k := hk
      show key ((part_loop (keyCmp key) (l.getD 0 default) (l.length - 1) l 0
          (l.length - 1) (by omega) (by omega) le_rfl).1.getD 0 default) ≤
        key ((part_loop (keyCmp key) (l.getD 0 default) (l.length - 1) l 0
          (l.length - 1) (by omega) (by omega) le_rfl).1.getD k default)
      rw [P2]
      exact P7 k (by omega) (by omega)

theorem partition_last_max {α : Type} [Inhabited α] (key : α → Int) (l : List α)
    (hl : 2 ≤ l.length)
    (hmax : key (l.getD 0 default) ≤ key (l.getD (l.length - 1) default)) :
    (_gnutls_partition (keyCmp key) l).2 ≤ l.length - 2 := by
  obtain ⟨P1, P2, P3, P4, P5, P6, P7, P8, P10, P9⟩ :=
    part_loop_spec key (l.getD 0 default) (l.length - 1) l 0 (l.length - 1)
      (by omega) (by omega) le_rfl rfl
      (fun k hk => absurd hk (Nat.not_lt_zero k))
      (fun k hk hk' => absurd (lt_of_le_of_lt hk' hk) (lt_irrefl k))
  have hv : scan_down (keyCmp key) l (l.getD 0 default) (l.length - 1) ≤ l.length - 1 - 1 :=
    scan_down_first (keyCmp key) l (l.getD 0 default) (l.length - 1) (by omega)
      ((keyCmp_ge_zero key _ _).mpr hmax)
  have hj1 := P10 (by omega)
  unfold _gnutls_partition
  rw [dif_pos hl]
  split
  next hc => exact le_trans hj1 (by omega)
  next hc => omega

theorem mem_getD_of_mem {α : Type} [Inhabited α] (l : List α) (x : α) (hx : x ∈ l) :
    ∃ k, k < l.length ∧ l.getD k default = x := by
  induction l with
  | nil => simp at hx
  | cons a t ih =>
    rcases List.mem_cons.mp hx with h | h
    · exact ⟨0, by simp, by simp [List.getD, h.symm]⟩
    · obtain ⟨k, hk, he⟩ := ih h
      exact ⟨k + 1, by simp; omega, by simpa [List.getD_cons_succ] using he⟩

theorem mem_take_getD {α : Type} [Inhabited α] (l : List α) (m : Nat) (x : α)
    (hx : x ∈ l.take m) :
    ∃ k, k < m ∧ k < l.length ∧ l.getD k default = x := by
  induction l generalizing m with
  | nil => simp at hx
  | cons a t ih =>
    cases m with
    | zero => simp at hx
    | succ m' =>
      rw [List.take_succ_cons] at hx
      rcases List.mem_cons.mp hx with h | h
      · exact ⟨0, by omega, by simp, by simp [List.getD, h.symm]⟩
      · obtain ⟨k, hk, hk', he⟩ := ih m' h
        exact ⟨k + 1, by omega, by simp; omega, by simpa [List.getD_cons_succ] using he⟩

theorem mem_drop_getD {α : Type} [Inhabited α] (l : List α) (m : Nat) (x : α)
    (hx : x ∈ l.drop m) :
    ∃ k, m ≤ k ∧ k < l.length ∧ l.getD k default = x := by
  induction l generalizing m with
  | nil => simp at hx
  | cons a t ih =>
    cases m with
    | zero =>
      obtain ⟨k, hk, he⟩ := mem_getD_of_mem (a :: t) x (by simpa using hx)
      exact ⟨k, Nat.zero_le k, hk, he⟩
    | succ m' =>
      rw [List.drop_succ_cons] at hx
      obtain ⟨k, hk, hk', he⟩ := ih m' hx
      exact ⟨k + 1, by omega, by simp; omega, by simpa [List.getD_cons_succ] using he⟩

theorem pairwise_of_length_le_one {α : Type} (R : α → α → Prop) (l : List α)
    (h : l.length ≤ 1) : l.Pairwise R := by
  cases l with
  | nil => exact List.Pairwise.nil
  | cons a t =>
    cases t with
    | nil => simp
    | cons b t' => simp at h

/-- The termination measure of the modelled `_gnutls_qsort`: twice the
window size, plus one when the partition would return the last index (in
that one case the left recursive call keeps the window size, but its own
partition is then strictly interior, because the previous pass moved a
maximal element to the end). -/
def qsort_measure {α : Type} [Inhabited α] (key : α → Int) (l : List α) : Nat :=
  2 * l.length +
    (if (_gnutls_partition (keyCmp key) l).2 = l.length - 1 then 1 else 0)

theorem qsort_measure_le {α : Type} [Inhabited α] (key : α → Int) (l : List α) :
    qsort_measure key l ≤ 2 * l.length + 1 := by
  unfold qsort_measure; split <;> omega

theorem qsort_measure_ge {α : Type} [Inhabited α] (key : α → Int) (l : List α) :
    2 * l.length ≤ qsort_measure key l := by
  unfold qsort_measure; split <;> omega

theorem qsort_dec1 {α : Type} [Inhabited α] (key : α → Int) (l : List α)
    (h : ¬ l.length ≤ 1) :
    qsort_measure key ((_gnutls_partition (keyCmp key) l).1.take
      (if (_gnutls_partition (keyCmp key) l).2 < l.length then
        (_gnutls_partition (keyCmp key) l).2 + 1
      else (_gnutls_partition (keyCmp key) l).2)) < qsort_measure key l := by
  obtain ⟨P1, P2, P3, P4, P9⟩ := partition_spec key l (by omega)
  rw [if_pos P2]
  by_cases hp : (_gnutls_partition (keyCmp key) l).2 + 1 < l.length
  · have h1 := qsort_measure_le key ((_gnutls_partition (keyCmp key) l).1.take
      ((_gnutls_partition (keyCmp key) l).2 + 1))
    have h2 := qsort_measure_ge key l
    rw [List.length_take] at h1
    omega
  · have hpn : (_gnutls_partition (keyCmp key) l).2 + 1 = l.length := by omega
    have htake : (_gnutls_partition (keyCmp key) l).1.take
        ((_gnutls_partition (keyCmp key) l).2 + 1) = (_gnutls_partition (keyCmp key) l).1 := by
      rw [show (_gnutls_partition (keyCmp key) l).2 + 1 =
        (_gnutls_partition (keyCmp key) l).1.length by omega]
      exact List.take_length _
    rw [htake]
    have h30 := P3 0 (Nat.zero_le _)
    have hmax : key ((_gnutls_partition (keyCmp key) l).1.getD 0 default) ≤
        key ((_gnutls_partition (keyCmp key) l).1.getD
          ((_gnutls_partition (keyCmp key) l).1.length - 1) default) := by
      rw [show (_gnutls_partition (keyCmp key) l).1.length - 1 =
        (_gnutls_partition (keyCmp key) l).2 by omega]
      exact h30
    have hlast := partition_last_max key (_gnutls_partition (keyCmp key) l).1
      (by omega) hmax
    unfold qsort_measure
    rw [if_neg (by omega), if_pos (by omega)]
    omega

theorem qsort_dec2 {α : Type} [Inhabited α] (key : α → Int) (l : List α)
    (h : ¬ l.length ≤ 1) :
    qsort_measure key ((_gnutls_partition (keyCmp key) l).1.drop
      ((_gnutls_partition (keyCmp key) l).2 + 1)) < qsort_measure key l := by
  obtain ⟨P1, P2, P3, P4, P9⟩ := partition_spec key l (by omega)
  have h1 := qsort_measure_le key ((_gnutls_partition (keyCmp key) l).1.drop
    ((_gnutls_partition (keyCmp key) l).2 + 1))
  have h2 := qsort_measure_ge key l
  rw [List.length_drop] at h1
  omega

/-- `_gnutls_qsort`, modelled at its single call site: the C function is
generic in a comparator, and is only ever invoked with
`_gnutls_compare_algo`, which is `keyCmp` of the 64/8/1 score; the model
is specialised to such score-induced comparators (for an arbitrary
inconsistent comparator the C recursion need not terminate, but the
actual comparator always compares consistently).  Each level partitions
the window in place and recurses on `[0, pivot]` (the C bound
`pivot < nmemb ? pivot + 1 : pivot`, and `pivot < nmemb` always holds)
and on `[pivot+1, nmemb)`; the two windows are disjoint, so the in-place
recursion is the concatenation of the recursions on the two sublists. -/
def _gnutls_qsort {α : Type} [Inhabited α] (key : α → Int) (l : List α) : List α :=
  if h : l.length ≤ 1 then l
  else
    _gnutls_qsort key ((_gnutls_partition (keyCmp key) l).1.take
      (if (_gnutls_partition (keyCmp key) l).2 < l.length then
        (_gnutls_partition (keyCmp key) l).2 + 1
      else (_gnutls_partition (keyCmp key) l).2)) ++
    _gnutls_qsort key ((_gnutls_partition (keyCmp key) l).1.drop
      ((_gnutls_partition (keyCmp key) l).2 + 1))
termination_by qsort_measure key l
decreasing_by
  · exact qsort_dec1 key l h
  · exact qsort_dec2 key l h

theorem qsort_main {α : Type} [Inhabited α] (key : α → Int) :
    ∀ (N : Nat) (l : List α), qsort_measure key l ≤ N →
      (_gnutls_qsort key l).Pairwise (fun a b => key a ≤ key b) ∧
      (∀ x ∈ _gnutls_qsort key l, x ∈ l) := by
  intro N
  induction N with
  | zero =>
    intro l hm
    have h2 := qsort_measure_ge key l
    have hl : l.length = 0 := by omega
    rw [_gnutls_qsort, dif_pos (by omega)]
    exact ⟨pairwise_of_length_le_one _ l (by omega), fun x hx => hx⟩
  | succ N ih =>
    intro l hm
    rw [_gnutls_qsort]
    split
    next h => exact ⟨pairwise_of_length_le_one _ l h, fun x hx => hx⟩
    next h =>
      obtain ⟨P1, P2, P3, P4, P9⟩ := partition_spec key l (by omega)
      have hd1 := qsort_dec1 key l h
      have hd2 := qsort_dec2 key l h
      obtain ⟨hs1, hsub1⟩ := ih ((_gnutls_partition (keyCmp key) l).1.take
        (if (_gnutls_partition (keyCmp key) l).2 < l.length then
          (_gnutls_partition (keyCmp key) l).2 + 1
        else (_gnutls_partition (keyCmp key) l).2)) (by omega)
      obtain ⟨hs2, hsub2⟩ := ih ((_gnutls_partition (keyCmp key) l).1.drop
        ((_gnutls_partition (keyCmp key) l).2 + 1)) (by omega)
      rw [if_pos P2] at hs1 hsub1
      constructor
      · rw [if_pos P2, List.pairwise_append]
        refine ⟨hs1, hs2, ?_⟩
        intro x hx y hy
        have hxm := hsub1 x hx
        have hym := hsub2 y hy
        obtain ⟨kx, hkx, hkx', hex⟩ := mem_take_getD _ _ x hxm
        obtain ⟨ky, hky, hky', hey⟩ := mem_drop_getD _ _ y hym
        have hxle : key x ≤ key ((_gnutls_partition (keyCmp key) l).1.getD
            (_gnutls_partition (keyCmp key) l).2 default) := by
          rw [← hex]
          exact P3 kx (by omega)
        have hyge : key ((_gnutls_partition (keyCmp key) l).1.getD
            (_gnutls_partition (keyCmp key) l).2 default) ≤ key y := by
          rw [← hey]
          exact P4 ky (by omega) (by omega)
        exact le_trans hxle hyge
      · intro x hx
        rw [if_pos P2] at hx
        rcases List.mem_append.mp hx with hx' | hx'
        · have := hsub1 x hx'
          exact P9 x (List.mem_of_mem_take this)
        · have := hsub2 x hx'
          exact P9 x (List.mem_of_mem_drop this)

/-- `_gnutls_supported_ciphersuites_sorted`: obtain the filtered suites
and qsort them with `_gnutls_compare_algo` (on failure the error count
is returned unchanged). -/
def _gnutls_supported_ciphersuites_sorted (session : gnutls_session) :
    Except Int (List GNUTLS_CipherSuite) :=
  match _gnutls_supported_ciphersuites session with
  | .error e => .error e
  | .ok ciphers => .ok (_gnutls_qsort (suite_score session) ciphers)

/- Fueled, structurally recursive twins of the sort routines.  The
well-founded originals above carry the correctness proofs; these twins
compute by kernel reduction, and are proved equal to the originals when
given enough fuel, so concrete runs of the pipeline can be checked by
`decide`/`rfl`. -/

def scan_up_f {α : Type} [Inhabited α] (cmp : α → α → Int) (l : List α) (ptmp : α)
    (full : Nat) : Nat → Nat → Nat
  | 0, i => i
  | c + 1, i =>
    if i < full ∧ cmp (l.getD i default) ptmp ≤ 0 then scan_up_f cmp l ptmp full c (i + 1)
    else i

theorem scan_up_f_eq {α : Type} [Inhabited α] (cmp : α → α → Int) (l : List α)
    (ptmp : α) (full : Nat) : ∀ (c i : Nat), full - i ≤ c →
    scan_up_f cmp l ptmp full c i = scan_up cmp l ptmp full i := by
  intro c
  induction c with
  | zero =>
    intro i hc
    rw [scan_up, dif_neg (fun hcond => by omega)]
    rfl
  | succ c ih =>
    intro i hc
    rw [scan_up]
    show (if i < full ∧ cmp (l.getD i default) ptmp ≤ 0 then
      scan_up_f cmp l ptmp full c (i + 1) else i) = _
    by_cases hcond : i < full ∧ cmp (l.getD i default) ptmp ≤ 0
    · rw [if_pos hcond, dif_pos hcond]
      exact ih (i + 1) (by omega)
    · rw [if_neg hcond, dif_neg hcond]

def scan_down_f {α : Type} [Inhabited α] (cmp : α → α → Int) (l : List α) (ptmp : α) :
    Nat → Nat
  | 0 => 0
  | j + 1 =>
    if 0 ≤ cmp (l.getD (j + 1) default) ptmp then scan_down_f cmp l ptmp j else j + 1

theorem scan_down_f_eq {α : Type} [Inhabited α] (cmp : α → α → Int) (l : List α)
    (ptmp : α) : ∀ j : Nat, scan_down_f cmp l ptmp j = scan_down cmp l ptmp j := by
  intro j
  induction j with
  | zero =>
    rw [scan_down, dif_neg (fun hcond => by omega)]
    rfl
  | succ j ih =>
    rw [scan_down]
    show (if 0 ≤ cmp (l.getD (j + 1) default) ptmp then scan_down_f cmp l ptmp j
      else j + 1) = _
    by_cases hcond : 0 ≤ cmp (l.getD (j + 1) default) ptmp
    · rw [if_pos hcond, dif_pos ⟨Nat.succ_pos j, hcond⟩]
      simpa using ih
    · rw [if_neg hcond, dif_neg (fun hc => hcond hc.2)]

def part_loop_f {α : Type} [Inhabited α] (cmp : α → α → Int) (ptmp : α) (full : Nat) :
    Nat → List α → Nat → Nat → List α × Nat × Nat
  | 0, l, i, j => (l, i, j)
  | c + 1, l, i, j =>
    if i < j then
      if scan_up_f cmp l ptmp full (full + 1) i < scan_down_f cmp l ptmp j then
        part_loop_f cmp ptmp full c
          (swapL l (scan_up_f cmp l ptmp full (full + 1) i) (scan_down_f cmp l ptmp j))
          (scan_up_f cmp l ptmp full (full + 1) i) (scan_down_f cmp l ptmp j)
      else (l, scan_up_f cmp l ptmp full (full + 1) i, scan_down_f cmp l ptmp j)
    else (l, i, j)

theorem part_loop_f_eq {α : Type} [Inhabited α] (cmp : α → α → Int) (ptmp : α)
    (full : Nat) : ∀ (c : Nat) (l : List α) (i j : Nat) (hlen : l.length = full + 1)
    (hi : i ≤ full) (hj : j ≤ full)
    (hc : 2 * ((full - i) + j) + (if 0 < cmp (l.getD i default) ptmp then 1 else 0) < c),
    part_loop_f cmp ptmp full c l i j = part_loop cmp ptmp full l i j hlen hi hj := by
  intro c
  induction c with
  | zero => intro l i j hlen hi hj hc; omega
  | succ c ih =>
    intro l i j hlen hi hj hc
    rw [part_loop]
    show (if i < j then _ else (l, i, j)) = _
    rw [scan_up_f_eq cmp l ptmp full (full + 1) i (by omega),
      scan_down_f_eq cmp l ptmp j]
    by_cases h1 : i < j
    · rw [if_pos h1, dif_pos h1]
      by_cases h2 : scan_up cmp l ptmp full i < scan_down cmp l ptmp j
      · rw [if_pos h2, dif_pos h2]
        refine ih _ _ _ (by rw [length_swapL]; exact hlen)
          (scan_up_le cmp l ptmp full i hi)
          (le_trans (scan_down_le cmp l ptmp j) hj) ?_
        have hdec := part_measure_dec cmp l ptmp full i j hlen hi hj h1 h2
        omega
      · rw [if_neg h2, dif_neg h2]
    · rw [if_neg h1, dif_neg h1]

def partition_f {α : Type} [Inhabited α] (cmp : α → α → Int) (l : List α) :
    List α × Nat :=
  if 2 ≤ l.length then
    if 0 < (part_loop_f cmp (l.getD 0 default) (l.length - 1) (4 * l.length + 2) l 0
        (l.length - 1)).2.2 then
      (swapL (part_loop_f cmp (l.getD 0 default) (l.length - 1) (4 * l.length + 2) l 0
          (l.length - 1)).1 0
        (part_loop_f cmp (l.getD 0 default) (l.length - 1) (4 * l.length + 2) l 0
          (l.length - 1)).2.2,
       (part_loop_f cmp (l.getD 0 default) (l.length - 1) (4 * l.length + 2) l 0
          (l.length - 1)).2.2)
    else
      ((part_loop_f cmp (l.getD 0 default) (l.length - 1) (4 * l.length + 2) l 0
          (l.length - 1)).1, 0)
  else (l, 0)

theorem partition_f_eq {α : Type} [Inhabited α] (cmp : α → α → Int) (l : List α) :
    partition_f cmp l = _gnutls_partition cmp l := by
  unfold partition_f _gnutls_partition
  by_cases h : 2 ≤ l.length
  · rw [if_pos h, dif_pos h]
    have hind : (if 0 < cmp (l.getD 0 default) (l.getD 0 default) then 1 else 0) ≤ 1 := by
      split <;> omega
    rw [part_loop_f_eq cmp (l.getD 0 default) (l.length - 1) (4 * l.length + 2) l 0
      (l.length - 1) (by omega) (by omega) le_rfl (by omega)]
  · rw [if_neg h, dif_neg h]

def qsort_f {α : Type} [Inhabited α] (key : α → Int) : Nat → List α → List α
  | 0, l => l
  | c + 1, l =>
    if l.length ≤ 1 then l
    else
      qsort_f key c ((partition_f (keyCmp key) l).1.take
        (if (partition_f (keyCmp key) l).2 < l.length then
          (partition_f (keyCmp key) l).2 + 1
        else (partition_f (keyCmp key) l).2)) ++
      qsort_f key c ((partition_f (keyCmp key) l).1.drop
        ((partition_f (keyCmp key) l).2 + 1))

theorem qsort_f_eq {α : Type} [Inhabited α] (key : α → Int) :
    ∀ (c : Nat) (l : List α), qsort_measure key l < c →
    qsort_f key c l = _gnutls_qsort key l := by
  intro c
  induction c with
  | zero =>
    intro l hc
    have := qsort_measure_ge key l
    omega
  | succ c ih =>
    intro l hc
    rw [_gnutls_qsort]
    show (if l.length ≤ 1 then l else _) = _
    simp only [partition_f_eq]
    by_cases h1 : l.length ≤ 1
    · rw [if_pos h1, dif_pos h1]
    · rw [if_neg h1, dif_neg h1]
      have hd1 := qsort_dec1 key l h1
      have hd2 := qsort_dec2 key l h1
      rw [ih _ (by omega), ih _ (by omega)]

/-- Kernel-computable form of `_gnutls_supported_ciphersuites_sorted`
(equal to it by `supported_sorted_f_eq`). -/
def supported_ciphersuites_sorted_f (session : gnutls_session) :
    Except Int (List GNUTLS_CipherSuite) :=
  match _gnutls_supported_ciphersuites session with
  | .error e => .error e
  | .ok ciphers => .ok (qsort_f (suite_score session) (2 * ciphers.length + 2) ciphers)

theorem supported_sorted_f_eq (session : gnutls_session) :
    _gnutls_supported_ciphersuites_sorted session =
      supported_ciphersuites_sorted_f session := by
  unfold _gnutls_supported_ciphersuites_sorted supported_ciphersuites_sorted_f
  cases h : _gnutls_supported_ciphersuites session with
  | error e => rfl
  | ok ciphers =>
    have hm := qsort_measure_le (suite_score session) ciphers
    show Except.ok (_gnutls_qsort (suite_score session) ciphers) =
      Except.ok (qsort_f (suite_score session) (2 * ciphers.length + 2) ciphers)
    rw [qsort_f_eq (suite_score session) (2 * ciphers.length + 2) ciphers (by omega)]

theorem supported_ok_eq (S : gnutls_session) (l : List GNUTLS_CipherSuite)
    (h : _gnutls_supported_ciphersuites S = .ok l) :
    l = (cs_algorithms.map (·.id)).filter (suite_survives S) ∧ l ≠ [] := by
  unfold _gnutls_supported_ciphersuites at h
  rw [if_neg (by decide)] at h
  by_cases hz : ((cs_algorithms.map (·.id)).filter (suite_survives S)).length = 0
  · rw [if_pos hz] at h
    exact absurd h (by simp)
  · rw [if_neg hz] at h
    injection h with h
    subst h
    exact ⟨rfl, by intro hnil; rw [hnil] at hz; simp at hz⟩

theorem comp_ok_eq (S : gnutls_session) (l : List Nat)
    (h : _gnutls_supported_compression_methods S = .ok l) :
    l = comp_methods_scan S S.compression_method_priority ∧ l ≠ [] := by
  unfold _gnutls_supported_compression_methods at h
  by_cases hz : (comp_methods_scan S S.compression_method_priority).length = 0
  · rw [if_pos hz] at h
    exact absurd h (by simp)
  · rw [if_neg hz] at h
    injection h with h
    subst h
    exact ⟨rfl, by intro hnil; rw [hnil] at hz; simp at hz⟩

/-- C1: every suite in the list produced by `_gnutls_supported_ciphersuites`
has nonnegative kx, cipher and mac priority ranks for the session, has
minimum version at most the session's version, and, when the session's
`enable_private` flag is off, does not have first wire byte 0xFF. -/
theorem C1_offerable_filter (S : gnutls_session) (l : List GNUTLS_CipherSuite)
    (c : GNUTLS_CipherSuite) (h : _gnutls_supported_ciphersuites S = .ok l)
    (hc : c ∈ l) :
    0 ≤ _gnutls_kx_priority S (_gnutls_cipher_suite_get_kx_algo c) ∧
    0 ≤ _gnutls_cipher_priority S (_gnutls_cipher_suite_get_cipher_algo c) ∧
    0 ≤ _gnutls_mac_priority S (_gnutls_cipher_suite_get_mac_algo c) ∧
    _gnutls_cipher_suite_get_version c ≤ S.version ∧
    (S.enable_private = false → c.b0 ≠ 0xFF) := by
  obtain ⟨hl, -⟩ := supported_ok_eq S l h
  subst hl
  obtain ⟨hmem, hs⟩ := List.mem_filter.mp hc
  unfold suite_survives at hs
  simp only [Bool.and_eq_true, Bool.not_eq_true', decide_eq_false_iff_not, not_lt] at hs
  obtain ⟨⟨⟨⟨h1, h2⟩, h3⟩, h4⟩, h5⟩ := hs
  refine ⟨h3, h5, h4, h2, ?_⟩
  intro hpriv hb0
  rw [hpriv] at h1
  simp [hb0] at h1

/-- The session used by several witnesses: kx `[RSA]`, cipher
`[ARCFOUR_128]`, mac `[SHA]`, version SSL3, private suites off; exactly
`GNUTLS_RSA_ARCFOUR_SHA` = {0x00, 0x05} survives the filter. -/
def session_single : gnutls_session :=
  ⟨[GNUTLS_KX_RSA], [GNUTLS_CIPHER_ARCFOUR_128], [GNUTLS_MAC_SHA],
   [GNUTLS_COMP_NULL, GNUTLS_COMP_ZLIB], false, GNUTLS_SSL3⟩

theorem C1_offerable_filter_witness :
    0 ≤ _gnutls_kx_priority session_single (_gnutls_cipher_suite_get_kx_algo ⟨0x00, 0x05⟩) ∧
    0 ≤ _gnutls_cipher_priority session_single
      (_gnutls_cipher_suite_get_cipher_algo ⟨0x00, 0x05⟩) ∧
    0 ≤ _gnutls_mac_priority session_single (_gnutls_cipher_suite_get_mac_algo ⟨0x00, 0x05⟩) ∧
    _gnutls_cipher_suite_get_version ⟨0x00, 0x05⟩ ≤ session_single.version ∧
    (session_single.enable_private = false → (⟨0x00, 0x05⟩ : GNUTLS_CipherSuite).b0 ≠ 0xFF) :=
  C1_offerable_filter session_single [⟨0x00, 0x05⟩] ⟨0x00, 0x05⟩ rfl (by decide)

/-- C9: the (pre-sort) survivor list is a sublist of the static table's
id column — same relative order, and no id occurs more often than in the
table. -/
theorem C9_table_subsequence (S : gnutls_session) (l : List GNUTLS_CipherSuite)
    (h : _gnutls_supported_ciphersuites S = .ok l) :
    l.Sublist (cs_algorithms.map (·.id)) ∧
    ∀ s, l.count s ≤ (cs_algorithms.map (·.id)).count s := by
  obtain ⟨hl, -⟩ := supported_ok_eq S l h
  subst hl
  exact ⟨List.filter_sublist _, fun s => (List.filter_sublist _).count_le s⟩

theorem C9_table_subsequence_witness :
    ([⟨0x00, 0x05⟩] : List GNUTLS_CipherSuite).Sublist (cs_algorithms.map (·.id)) ∧
    ∀ s, ([⟨0x00, 0x05⟩] : List GNUTLS_CipherSuite).count s ≤
      (cs_algorithms.map (·.id)).count s :=
  C9_table_subsequence session_single [⟨0x00, 0x05⟩] rfl

/-- C4: when the filter leaves no cipher suite (in particular when the
kx priority list is empty) the function returns the dedicated error
`GNUTLS_E_NO_CIPHER_SUITES`, never a successful empty list; likewise an
empty compression survivor set yields
`GNUTLS_E_NO_COMPRESSION_ALGORITHMS`, never a successful empty list. -/
theorem C4_no_survivors_error (S : gnutls_session) :
    (((cs_algorithms.map (·.id)).filter (suite_survives S)).length = 0 →
      _gnutls_supported_ciphersuites S = .error GNUTLS_E_NO_CIPHER_SUITES) ∧
    (S.kx_algorithm_priority = [] →
      _gnutls_supported_ciphersuites S = .error GNUTLS_E_NO_CIPHER_SUITES) ∧
    (∀ l, _gnutls_supported_ciphersuites S = .ok l → l ≠ []) ∧
    ((comp_methods_scan S S.compression_method_priority).length = 0 →
      _gnutls_supported_compression_methods S =
        .error GNUTLS_E_NO_COMPRESSION_ALGORITHMS) ∧
    (∀ l, _gnutls_supported_compression_methods S = .ok l → l ≠ []) := by
  have herr : ((cs_algorithms.map (·.id)).filter (suite_survives S)).length = 0 →
      _gnutls_supported_ciphersuites S = .error GNUTLS_E_NO_CIPHER_SUITES := by
    intro hz
    unfold _gnutls_supported_ciphersuites
    rw [if_neg (by decide), if_pos hz]
  refine ⟨herr, ?_, fun l hok => (supported_ok_eq S l hok).2, ?_, 
    fun l hok => (comp_ok_eq S l hok).2⟩
  · intro hkx
    refine herr ?_
    have hnil : (cs_algorithms.map (·.id)).filter (suite_survives S) = [] := by
      rw [List.filter_eq_nil_iff]
      intro c hc
      unfold suite_survives _gnutls_kx_priority
      rw [hkx]
      simp [priority_scan]
    rw [hnil]
    rfl
  · intro hz
    unfold _gnutls_supported_compression_methods
    rw [if_pos hz]

/-- A fully empty session configuration. -/
def session_empty : gnutls_session := ⟨[], [], [], [], false, GNUTLS_TLS1⟩

theorem C4_no_survivors_error_witness :
    _gnutls_supported_ciphersuites session_empty = .error GNUTLS_E_NO_CIPHER_SUITES ∧
    _gnutls_supported_compression_methods session_empty =
      .error GNUTLS_E_NO_COMPRESSION_ALGORITHMS :=
  ⟨(C4_no_survivors_error session_empty).2.1 rfl,
   (C4_no_survivors_error session_empty).2.2.2.1 rfl⟩

theorem comp_scan_filterMap (S : gnutls_session) : ∀ lst : List Nat,
    comp_methods_scan S lst = lst.filterMap (fun a =>
      if _gnutls_compression_get_num a = -1 ∨
          (S.enable_private = false ∧ MIN_PRIVATE_COMP_ALGO ≤ _gnutls_compression_get_num a)
      then none
      else some ((_gnutls_compression_get_num a % 256).toNat)) := by
  intro lst
  induction lst with
  | nil => rfl
  | cons a rest ih =>
    rw [List.filterMap_cons]
    unfold comp_methods_scan
    by_cases hcond : _gnutls_compression_get_num a = -1 ∨
        (S.enable_private = false ∧ MIN_PRIVATE_COMP_ALGO ≤ _gnutls_compression_get_num a)
    · rw [if_pos hcond, if_pos hcond]
      exact ih
    · rw [if_neg hcond, if_neg hcond, ih]

/-- C6: a successful `_gnutls_supported_compression_methods` run is the
in-order image of the session's compression priority list under the wire
number lookup, keeping exactly the entries whose lookup succeeds and
(when private numbers are disabled) whose number is below
`MIN_PRIVATE_COMP_ALGO`, each emitted as a byte. -/
theorem C6_compression_enumeration (S : gnutls_session) (l : List Nat)
    (h : _gnutls_supported_compression_methods S = .ok l) :
    l = S.compression_method_priority.filterMap (fun a =>
      if _gnutls_compression_get_num a = -1 ∨
          (S.enable_private = false ∧ MIN_PRIVATE_COMP_ALGO ≤ _gnutls_compression_get_num a)
      then none
      else some ((_gnutls_compression_get_num a % 256).toNat)) := by
  obtain ⟨hl, -⟩ := comp_ok_eq S l h
  rw [hl, comp_scan_filterMap]

/-- A session whose compression priority list mixes a known method, an
unknown id, and zlib. -/
def session_comp : gnutls_session :=
  ⟨[], [], [], [GNUTLS_COMP_NULL, 99, GNUTLS_COMP_ZLIB], false, GNUTLS_TLS1⟩

theorem C6_compression_enumeration_witness :
    ([0x00, 0x01] : List Nat) = session_comp.compression_method_priority.filterMap
      (fun a =>
        if _gnutls_compression_get_num a = -1 ∨
            (session_comp.enable_private = false ∧
              MIN_PRIVATE_COMP_ALGO ≤ _gnutls_compression_get_num a)
        then none
        else some ((_gnutls_compression_get_num a % 256).toNat)) :=
  C6_compression_enumeration session_comp [0x00, 0x01] rfl

theorem priority_scan_eq (a : Nat) : ∀ (lst : List Nat) (i : Nat),
    priority_scan lst a i = if a ∈ lst then (i + lst.indexOf a : Int) else -1 := by
  intro lst
  induction lst with
  | nil => intro i; simp [priority_scan]
  | cons x rest ih =>
    intro i
    unfold priority_scan
    by_cases hx : x = a
    · subst hx
      rw [if_pos rfl, if_pos (List.mem_cons_self x rest)]
      simp [List.indexOf_cons_self]
    · rw [if_neg hx, ih (i + 1)]
      by_cases hm : a ∈ rest
      · rw [if_pos hm, if_pos (List.mem_cons_of_mem x hm)]
        rw [List.indexOf_cons_ne _ hx]
        push_cast
        omega
      · rw [if_neg hm, if_neg (by
          simp only [List.mem_cons, not_or]
          exact ⟨fun h => hx h.symm, hm⟩)]

theorem priority_scan_rank (lst : List Nat) (a : Nat) :
    (priority_scan lst a 0 = -1 ↔ a ∉ lst) ∧
    (a ∈ lst → priority_scan lst a 0 = lst.indexOf a) := by
  rw [priority_scan_eq]
  constructor
  · by_cases hm : a ∈ lst
    · rw [if_pos hm]
      simp only [hm, not_true_eq_false, iff_false]
      omega
    · rw [if_neg hm]
      simp [hm]
  · intro hm
    rw [if_pos hm]
    omega

/-- C3: each of the three priority functions returns -1 exactly when the
algorithm is absent from the session's priority list for that class, and
otherwise the 0-based index of its first occurrence there. -/
theorem C3_priority_rank (S : gnutls_session) (a : Nat) :
    (_gnutls_kx_priority S a = -1 ↔ a ∉ S.kx_algorithm_priority) ∧
    (a ∈ S.kx_algorithm_priority →
      _gnutls_kx_priority S a = S.kx_algorithm_priority.indexOf a) ∧
    (_gnutls_cipher_priority S a = -1 ↔ a ∉ S.cipher_algorithm_priority) ∧
    (a ∈ S.cipher_algorithm_priority →
      _gnutls_cipher_priority S a = S.cipher_algorithm_priority.indexOf a) ∧
    (_gnutls_mac_priority S a = -1 ↔ a ∉ S.mac_algorithm_priority) ∧
    (a ∈ S.mac_algorithm_priority →
      _gnutls_mac_priority S a = S.mac_algorithm_priority.indexOf a) :=
  ⟨(priority_scan_rank S.kx_algorithm_priority a).1,
   (priority_scan_rank S.kx_algorithm_priority a).2,
   (priority_scan_rank S.cipher_algorithm_priority a).1,
   (priority_scan_rank S.cipher_algorithm_priority a).2,
   (priority_scan_rank S.mac_algorithm_priority a).1,
   (priority_scan_rank S.mac_algorithm_priority a).2⟩

theorem C3_priority_rank_witness :
    _gnutls_kx_priority session_single GNUTLS_KX_RSA =
      session_single.kx_algorithm_priority.indexOf GNUTLS_KX_RSA :=
  (C3_priority_rank session_single GNUTLS_KX_RSA).2.1 (by decide)

/-- C5: looking a suite up by its (kx, cipher, mac) triple and
decomposing the result with the per-component accessors returns the same
triple, for every row of `cs_algorithms`. -/
theorem C5_suite_roundtrip : ∀ e ∈ cs_algorithms,
    (suite_id_for e.kx_algorithm e.block_algorithm e.mac_algorithm).isSome = true ∧
    _gnutls_cipher_suite_get_kx_algo
      ((suite_id_for e.kx_algorithm e.block_algorithm e.mac_algorithm).getD default) =
      e.kx_algorithm ∧
    _gnutls_cipher_suite_get_cipher_algo
      ((suite_id_for e.kx_algorithm e.block_algorithm e.mac_algorithm).getD default) =
      e.block_algorithm ∧
    _gnutls_cipher_suite_get_mac_algo
      ((suite_id_for e.kx_algorithm e.block_algorithm e.mac_algorithm).getD default) =
      e.mac_algorithm := by decide

theorem C5_suite_roundtrip_witness :
    (suite_id_for GNUTLS_KX_ANON_DH GNUTLS_CIPHER_ARCFOUR_128 GNUTLS_MAC_MD5).isSome =
      true ∧
    _gnutls_cipher_suite_get_kx_algo
      ((suite_id_for GNUTLS_KX_ANON_DH GNUTLS_CIPHER_ARCFOUR_128
        GNUTLS_MAC_MD5).getD default) = GNUTLS_KX_ANON_DH ∧
    _gnutls_cipher_suite_get_cipher_algo
      ((suite_id_for GNUTLS_KX_ANON_DH GNUTLS_CIPHER_ARCFOUR_128
        GNUTLS_MAC_MD5).getD default) = GNUTLS_CIPHER_ARCFOUR_128 ∧
    _gnutls_cipher_suite_get_mac_algo
      ((suite_id_for GNUTLS_KX_ANON_DH GNUTLS_CIPHER_ARCFOUR_128
        GNUTLS_MAC_MD5).getD default) = GNUTLS_MAC_MD5 :=
  C5_suite_roundtrip
    ⟨"GNUTLS_ANON_DH_ARCFOUR_MD5", ⟨0x00, 0x18⟩, GNUTLS_CIPHER_ARCFOUR_128,
     GNUTLS_KX_ANON_DH, GNUTLS_MAC_MD5, GNUTLS_SSL3⟩
    (List.mem_cons_self _ _)

/-- C7: `_gnutls_map_kx_get_kx` computes the same server-side first-match
lookup for both values of the `server` flag (the client branch of the C
source also runs the server-side loop). -/
theorem C7_map_kx_role_blind (type : Nat) (server : Bool) :
    _gnutls_map_kx_get_kx type server = _gnutls_map_kx_get_kx type true ∧
    _gnutls_map_kx_get_kx type server =
      ((cred_mappings.find? (fun p => p.server_type == type)).map
        (fun p => (p.algorithm : Int))).getD (-1) := by
  cases server <;> exact ⟨rfl, rfl⟩

/-- C8: the property accessors return their 0 sentinel for an id absent
from the table, never failing. -/
theorem C8_unknown_id_sentinel (a : Nat) :
    ((∀ e ∈ algorithms, e.id ≠ a) →
      _gnutls_cipher_get_block_size a = 0 ∧ gnutls_cipher_get_key_size a = 0) ∧
    ((∀ e ∈ hash_algorithms, e.id ≠ a) → _gnutls_mac_get_digest_size a = 0) := by
  constructor
  · intro hne
    have hf : algorithms.find? (fun p => p.id == a) = none := by
      rw [List.find?_eq_none]
      intro x hx
      simpa using hne x hx
    unfold _gnutls_cipher_get_block_size gnutls_cipher_get_key_size
    rw [hf]
    exact ⟨rfl, rfl⟩
  · intro hne
    have hf : hash_algorithms.find? (fun p => p.id == a) = none := by
      rw [List.find?_eq_none]
      intro x hx
      simpa using hne x hx
    unfold _gnutls_mac_get_digest_size
    rw [hf]
    rfl

theorem C8_unknown_id_sentinel_witness :
    _gnutls_cipher_get_block_size 999 = 0 ∧ gnutls_cipher_get_key_size 999 = 0 ∧
    _gnutls_mac_get_digest_size 999 = 0 :=
  ⟨((C8_unknown_id_sentinel 999).1 (by decide)).1,
   ((C8_unknown_id_sentinel 999).1 (by decide)).2,
   (C8_unknown_id_sentinel 999).2 (by decide)⟩

/-- C10: wire number and internal id of a compression method round-trip
for every table row, and an id absent from the table maps to -1. -/
theorem C10_compression_roundtrip :
    (∀ e ∈ _gnutls_compression_algorithms,
      _gnutls_compression_get_id (_gnutls_compression_get_num e.id) = (e.id : Int)) ∧
    (∀ a : Nat, (∀ e ∈ _gnutls_compression_algorithms, e.id ≠ a) →
      _gnutls_compression_get_num a = -1) := by
  constructor
  · decide
  · intro a hne
    have hf : _gnutls_compression_algorithms.find? (fun p => p.id == a) = none := by
      rw [List.find?_eq_none]
      intro x hx
      simpa using hne x hx
    unfold _gnutls_compression_get_num
    rw [hf]
    rfl

theorem C10_compression_roundtrip_witness :
    _gnutls_compression_get_id (_gnutls_compression_get_num GNUTLS_COMP_NULL) =
      (GNUTLS_COMP_NULL : Int) ∧
    _gnutls_compression_get_num 99 = -1 :=
  ⟨(C10_compression_roundtrip).1 ⟨"GNUTLS_COMP_NULL", GNUTLS_COMP_NULL, 0x00, 0, 0, 0⟩
    (List.mem_cons_self _ _),
   (C10_compression_roundtrip).2 99 (by decide)⟩

/-- C2 (amended): every suite list produced by
`_gnutls_supported_ciphersuites_sorted` is ascending in the
`(rank(kx)+1)*64 + (rank(cipher)+1)*8 + rank(mac)` combined score.  The
original claim's stability half — equal scores keep the static table
order — is false of the in-place quicksort; see
`C2_stability_counterexample`. -/
theorem C2_sorted_by_score (S : gnutls_session) (l : List GNUTLS_CipherSuite)
    (h : _gnutls_supported_ciphersuites_sorted S = .ok l) :
    l.Pairwise (fun a b => suite_score S a ≤ suite_score S b) := by
  unfold _gnutls_supported_ciphersuites_sorted at h
  cases heq : _gnutls_supported_ciphersuites S with
  | error e =>
    rw [heq] at h
    exact absurd h (by simp)
  | ok c =>
    rw [heq] at h
    have h' : Except.ok (_gnutls_qsort (suite_score S) c) = Except.ok l := h
    injection h' with h'
    subst h'
    exact (qsort_main (suite_score S) (qsort_measure (suite_score S) c) c le_rfl).1

/-- A session on which the quicksort reorders two equal-score suites
relative to the static table: kx priority
`[RSA_EXPORT, DHE_DSS, DHE_RSA]`, a full 9-cipher priority list, mac
`[MD5, SHA]`, TLS 1.0, private suites off.  The suites
`DHE_RSA_3DES_EDE_CBC_SHA` {0x00,0x16} and `DHE_DSS_AES_128_CBC_SHA`
{0x00,0x32} both score 201, the table lists {0x00,0x32} first, and the
sort emits {0x00,0x16} first. -/
def session_unstable : gnutls_session :=
  ⟨[GNUTLS_KX_RSA_EXPORT, GNUTLS_KX_DHE_DSS, GNUTLS_KX_DHE_RSA],
   [GNUTLS_CIPHER_3DES_CBC, GNUTLS_CIPHER_TWOFISH_128_CBC, GNUTLS_CIPHER_AES_256_CBC,
    GNUTLS_CIPHER_RC2_40_CBC, GNUTLS_CIPHER_ARCFOUR_40, GNUTLS_CIPHER_NULL,
    GNUTLS_CIPHER_DES_CBC, GNUTLS_CIPHER_ARCFOUR_128, GNUTLS_CIPHER_AES_128_CBC],
   [GNUTLS_MAC_MD5, GNUTLS_MAC_SHA],
   [GNUTLS_COMP_NULL], false, GNUTLS_TLS1⟩

/-- C2 counterexample: on `session_unstable` the sorted output contains
two suites of equal combined score in the opposite relative order to the
static `cs_algorithms` table, refuting the claimed tie stability. -/
theorem C2_stability_counterexample :
    _gnutls_supported_ciphersuites_sorted session_unstable =
      .ok [⟨0x00, 0x03⟩, ⟨0x00, 0x13⟩, ⟨0x00, 0x38⟩, ⟨0x00, 0x66⟩,
           ⟨0x00, 0x16⟩, ⟨0x00, 0x32⟩, ⟨0x00, 0x39⟩, ⟨0x00, 0x33⟩] ∧
    suite_score session_unstable ⟨0x00, 0x16⟩ =
      suite_score session_unstable ⟨0x00, 0x32⟩ ∧
    List.indexOf (⟨0x00, 0x16⟩ : GNUTLS_CipherSuite)
      [⟨0x00, 0x03⟩, ⟨0x00, 0x13⟩, ⟨0x00, 0x38⟩, ⟨0x00, 0x66⟩,
       ⟨0x00, 0x16⟩, ⟨0x00, 0x32⟩, ⟨0x00, 0x39⟩, ⟨0x00, 0x33⟩] <
      List.indexOf (⟨0x00, 0x32⟩ : GNUTLS_CipherSuite)
      [⟨0x00, 0x03⟩, ⟨0x00, 0x13⟩, ⟨0x00, 0x38⟩, ⟨0x00, 0x66⟩,
       ⟨0x00, 0x16⟩, ⟨0x00, 0x32⟩, ⟨0x00, 0x39⟩, ⟨0x00, 0x33⟩] ∧
    List.indexOf (⟨0x00, 0x32⟩ : GNUTLS_CipherSuite) (cs_algorithms.map (·.id)) <
      List.indexOf (⟨0x00, 0x16⟩ : GNUTLS_CipherSuite) (cs_algorithms.map (·.id)) := by
  refine ⟨by rw [supported_sorted_f_eq]; rfl, by decide, by decide, by decide⟩

theorem C2_sorted_by_score_witness :
    ([⟨0x00, 0x03⟩, ⟨0x00, 0x13⟩, ⟨0x00, 0x38⟩, ⟨0x00, 0x66⟩, ⟨0x00, 0x16⟩,
      ⟨0x00, 0x32⟩, ⟨0x00, 0x39⟩, ⟨0x00, 0x33⟩] : List GNUTLS_CipherSuite).Pairwise
      (fun a b => suite_score session_unstable a ≤ suite_score session_unstable b) :=
  C2_sorted_by_score session_unstable
    [⟨0x00, 0x03⟩, ⟨0x00, 0x13⟩, ⟨0x00, 0x38⟩, ⟨0x00, 0x66⟩, ⟨0x00, 0x16⟩,
     ⟨0x00, 0x32⟩, ⟨0x00, 0x39⟩, ⟨0x00, 0x33⟩]
    (by rw [supported_sorted_f_eq]; rfl)
